import Mathlib

/-!
Verification of the main-document resolver, compile pipeline and HTTP layer of
the latex-render-api repository (src/app/latex_compile.py, src/app/main.py).

The filesystem tree extracted from the uploaded zip is modelled as a list of
entries (regular files with text content, and directories), with paths given as
component lists relative to the working directory.  The working directory's own
resolved absolute location is an abstract component list `wd`; absolute paths
are `wd ++ rel`.  String scanning (the magic-root regex, substring checks,
lowercasing, path joining) is implemented over `List Char` by structural
recursion so that every definition evaluates by kernel reduction.
-/

namespace LatexCompile

/-- Whitespace class used by the magic-comment regex (Python re `\s`, ASCII part). -/
def pyIsSpace (c : Char) : Bool :=
  c == ' ' || c == '\t' || c == '\r' || c == '\n' || c == '\x0b' || c == '\x0c'

/-- Split a character list on a separator character, Python `str.split(sep)` style:
always returns at least one (possibly empty) piece. -/
def splitOnChar (sep : Char) : List Char → List (List Char)
  | [] => [[]]
  | a :: rest =>
    match splitOnChar sep rest with
    | [] => [[]]
    | r :: rs => if a == sep then [] :: r :: rs else (a :: r) :: rs

/-- Lexicographic comparison of character lists by code point, the order Python
uses to compare `str` values (and hence `PurePath` values). -/
def charListLt : List Char → List Char → Bool
  | [], [] => false
  | [], _ :: _ => true
  | _ :: _, [] => false
  | a :: as, b :: bs =>
    if a < b then true else if b < a then false else charListLt as bs

/-- Contiguous-substring test on character lists (Python `needle in hay`). -/
def hasSubstrL (needle : List Char) : List Char → Bool
  | [] => needle.isEmpty
  | c :: rest => needle.isPrefixOf (c :: rest) || hasSubstrL needle rest

/-- Python `needle in hay` on strings. -/
def containsSub (hay needle : String) : Bool :=
  hasSubstrL needle.data hay.data

/-- Python `s.lower()` (ASCII case folding, which covers the names compared here). -/
def lowerStr (s : String) : String :=
  String.mk (s.data.map Char.toLower)

/-- Python `s.endswith(suf)`. -/
def strEndsWith (s suf : String) : Bool :=
  suf.data.reverse.isPrefixOf s.data.reverse

/-- Python `s.startswith(pre)`. -/
def strStartsWith (s pre : String) : Bool :=
  pre.data.isPrefixOf s.data

/-- Drop leading regex whitespace. -/
def dropSp (cs : List Char) : List Char := cs.dropWhile pyIsSpace

/-- Drop trailing regex whitespace. -/
def trimEndSp (cs : List Char) : List Char := (cs.reverse.dropWhile pyIsSpace).reverse

/-- Python `s.strip(q)` for a single strip character: remove every leading and
trailing occurrence of `q`. -/
def pyStripChar (q : Char) (cs : List Char) : List Char :=
  ((cs.dropWhile (fun c => c == q)).reverse.dropWhile (fun c => c == q)).reverse

/-- Case-insensitive literal match (pattern given in lowercase); returns the
rest of the input on success. -/
def matchCI : List Char → List Char → Option (List Char)
  | [], cs => some cs
  | _ :: _, [] => none
  | p :: ps, c :: cs => if c.toLower == p then matchCI ps cs else none

/-! ## Filesystem model -/

/-- Kind of a filesystem entry in the extracted tree. -/
inductive EKind : Type
  | file (content : String)
  | dir
deriving DecidableEq

/-- One entry of the extracted tree: a path (components relative to the working
directory, as produced by `zipfile.extractall`, whose member names are
sanitized to contain no empty, `.` or `..` components) plus its kind. -/
structure FSEntry : Type where
  path : List String
  kind : EKind
deriving DecidableEq

/-- The extracted working-directory tree. The list order is the order in which
`Path.rglob` enumerates entries. -/
abbrev Tree := List FSEntry

def entryIsFile : EKind → Bool
  | .file _ => true
  | .dir => false

def findEntry (t : Tree) (p : List String) : Option FSEntry :=
  t.find? (fun e => decide (e.path = p))

/-- Model of `_read_text` (latex_compile.py line 21): the text of a regular
file, and `""` for a directory or missing path (any read failure is swallowed
and treated as empty text). -/
def readText (t : Tree) (p : List String) : String :=
  match findEntry t p with
  | some e => match e.kind with
    | .file c => c
    | .dir => ""
  | none => ""

/-- A regular file exists at `p` (Python `path.is_file()`, equivalently
`path.exists() and path.is_file()` since `is_file` implies `exists`). -/
def isFile (t : Tree) (p : List String) : Bool :=
  match findEntry t p with
  | some e => entryIsFile e.kind
  | none => false

/-- A directory exists at `p`: either an explicit directory entry, or `p` is a
proper prefix of some entry's path (a directory implied by a deeper entry). -/
def isDirAt (t : Tree) (p : List String) : Bool :=
  (match findEntry t p with
   | some e => !entryIsFile e.kind
   | none => false)
  || t.any (fun e => p.isPrefixOf e.path && decide (p.length < e.path.length))

/-- Python `path.exists()`: a file or a directory is present at `p`. -/
def pathExists (t : Tree) (p : List String) : Bool :=
  isFile t p || isDirAt t p

/-- All nonempty prefixes of a path (the path itself and its ancestor
directories inside the working directory). -/
def prefixesOf (p : List String) : List (List String) :=
  (List.range p.length).map (fun i => p.take (i + 1))

/-- First-occurrence deduplication (the key order of a Python dict built by
repeated insertion, and the once-each enumeration of `rglob`), with an
accumulator of already-emitted elements. -/
def firstDedupAux {α : Type} [DecidableEq α] (seen : List α) : List α → List α
  | [] => []
  | a :: l => if a ∈ seen then firstDedupAux seen l else a :: firstDedupAux (a :: seen) l

def firstDedup {α : Type} [DecidableEq α] (l : List α) : List α :=
  firstDedupAux [] l

/-- Every path present in the tree, explicit entries and implied ancestor
directories alike, each once. -/
def allPaths (t : Tree) : List (List String) :=
  firstDedup ((t.map (fun e => prefixesOf e.path)).flatten)

/-- Name matches the glob `*.tex`. -/
def texName (s : String) : Bool := strEndsWith s ".tex"

/-- Model of `workdir.rglob("*.tex")`: every path in the tree (files and
directories both — `rglob` matches directories too) whose final component ends
in `.tex`. -/
def rglobTex (t : Tree) : List (List String) :=
  (allPaths t).filter (fun p => texName (p.getLastD ""))

/-! ## Magic root comment (`_extract_magic_root`, latex_compile.py lines 28-36)

The scanned regex is `(?im)^\s*%+\s*!\s*tex\s+root\s*=\s*(.+?)\s*$`.  Since `.`
does not match a newline, a match lives on a single line and `re.search` finds
the first matching line; the lazy group with the trailing `\s*$` captures the
rest of that line minus surrounding whitespace.  A line whose part after `=` is
empty does not match at all; a line whose part after `=` is all whitespace
matches with a group that strips to the empty string, which makes the function
return None (`return root or None`). -/

/-- Try the root-declaration pattern against one line; on a match, return the
captured group with surrounding whitespace stripped (the regex group followed
by Python `.strip()`). -/
def magicLine (line : List Char) : Option String :=
  let s0 := dropSp line
  let s1 := s0.dropWhile (fun c => c == '%')
  if s1.length = s0.length then none
  else
    match dropSp s1 with
    | '!' :: s2 =>
      match matchCI ['t', 'e', 'x'] (dropSp s2) with
      | some s3 =>
        let s4 := dropSp s3
        if s4.length = s3.length then none
        else
          match matchCI ['r', 'o', 'o', 't'] s4 with
          | some s5 =>
            match dropSp s5 with
            | '=' :: s6 =>
              if s6.isEmpty then none
              else some (String.mk (trimEndSp (dropSp s6)))
            | _ => none
          | none => none
      | none => none
    | _ => none

/-- Model of `_extract_magic_root`: first matching line, group stripped of
whitespace, then of double quotes, then of single quotes; empty result means
no declaration. -/
def extractMagicRoot (text : String) : Option String :=
  match (splitOnChar '\n' text.data).findSome? magicLine with
  | none => none
  | some g =>
    let root := String.mk (pyStripChar '\'' (pyStripChar '"' (trimEndSp (dropSp g.data))))
    if root = "" then none else some root

/-! ## Path resolution (`_pick_magic_root`, latex_compile.py lines 39-64) -/

/-- Lexical normalization performed by `Path.resolve()` on a symlink-free tree:
drop empty and `.` components, let `..` remove the previous component (at the
filesystem root, `..` stays at the root). -/
def normComponents (parts : List String) : List String :=
  parts.foldl
    (fun stack q =>
      if q = "" ∨ q = "." then stack
      else if q = ".." then stack.dropLast
      else stack ++ [q])
    []

/-- Model of `(tex_path.parent / root_rel).resolve()`: `wd` is the resolved
working directory (absolute, as components from the filesystem root), `dirRel`
the declaring file's directory relative to it, `r` the declared root string.
A declared absolute path replaces the left operand of `/`, as in pathlib. -/
def resolveCand (wd : List String) (dirRel : List String) (r : String) : List String :=
  let parts := (splitOnChar '/' r.data).map (fun cs => String.mk cs)
  if r.data.head? = some '/' then normComponents parts
  else normComponents (wd ++ dirRel ++ parts)

/-- Characters of `str(path)` for an absolute path given by components. -/
def joinComps : List String → List Char
  | [] => []
  | [c] => c.data
  | c :: rest => c.data ++ '/' :: joinComps rest

def pathChars (p : List String) : List Char := '/' :: joinComps p

/-- Python `len(str(path))` for an absolute path. -/
def pathLen (p : List String) : Nat := (pathChars p).length

/-- The surviving root declarations, one per declaring `.tex` file in `rglob`
order: the declared path resolved against the declaring file's directory, kept
only if it stays inside the working directory and points at a regular file
(latex_compile.py lines 43-58). -/
def magicDecls (wd : List String) (t : Tree) : List (List String) :=
  (rglobTex t).filterMap (fun p =>
    if readText t p = "" then none
    else
      match extractMagicRoot (readText t p) with
      | none => none
      | some r =>
        if wd.isPrefixOf (resolveCand wd p.dropLast r)
            && isFile t ((resolveCand wd p.dropLast r).drop wd.length) then
          some (resolveCand wd p.dropLast r)
        else none)

/-- Strict "better candidate" order of the `max` call in `_pick_magic_root`
(line 64): higher tally first, then shorter absolute path string. -/
def beats2 (decls : List (List String)) (x b : List String) : Bool :=
  decide (decls.count b < decls.count x ∨
    (decls.count x = decls.count b ∧ pathLen x < pathLen b))

/-- Python `max(l, key=k)`: scan keeping the current best, replacing it only on
a strictly better key, so the first of equally-keyed elements wins. -/
def chooseMaxCore {α : Type} (beats : α → α → Bool) : α → List α → α
  | b, [] => b
  | b, x :: l => chooseMaxCore beats (if beats x b then x else b) l

def chooseMax {α : Type} (beats : α → α → Bool) : List α → Option α
  | [] => none
  | x :: l => some (chooseMaxCore beats x l)

/-- Model of `_pick_magic_root`: tally the surviving declarations (dict keys in
first-insertion order) and pick the most-referenced candidate, ties broken by
shorter path string. -/
def pickMagicRoot (wd : List String) (t : Tree) : Option (List String) :=
  chooseMax (beats2 (magicDecls wd t)) (firstDedup (magicDecls wd t))

/-! ## Scored fallback (`_score_tex_candidate`, `_pick_main_tex`, lines 67-107) -/

/-- Model of `_score_tex_candidate`: 50 for the filename being `main.tex`
(case-insensitively), 40 for a document-class declaration, 20 for a
document-begin marker, 5 for a document-end marker. -/
def scoreOf (t : Tree) (p : List String) : Nat :=
  (if lowerStr (p.getLastD "") = "main.tex" then 50 else 0)
  + (if containsSub (readText t p) "\\documentclass" then 40 else 0)
  + (if containsSub (readText t p) "\\begin\x7bdocument\x7d" then 20 else 0)
  + (if containsSub (readText t p) "\\end\x7bdocument\x7d" then 5 else 0)

/-- Strict order of `scored.sort(reverse=True)` on `(score, -len(str(path)),
path)` tuples: higher score, then shorter absolute path string, then larger
path string (the final component only separates exact (score, length) ties). -/
def beats3 (wd : List String) (t : Tree) (x b : List String) : Bool :=
  decide (scoreOf t b < scoreOf t x ∨
    (scoreOf t x = scoreOf t b ∧ pathLen (wd ++ x) < pathLen (wd ++ b)) ∨
    (scoreOf t x = scoreOf t b ∧ pathLen (wd ++ x) = pathLen (wd ++ b) ∧
      charListLt (pathChars (wd ++ b)) (pathChars (wd ++ x)) = true))

/-- Steps 2 and 3 of `_pick_main_tex` (lines 90-107): top-level `main.tex` by
convention, else the best-scoring `.tex` path, else the no-document error. -/
def conventionOrScore (wd : List String) (t : Tree) : Except String (List String) :=
  if pathExists t ["main.tex"] then .ok (wd ++ ["main.tex"])
  else
    match chooseMax (beats3 wd t) (rglobTex t) with
    | some p => .ok (wd ++ p)
    | none => .error "No .tex file found in the zip."

/-- Model of `_pick_main_tex` (lines 84-107): explicit declaration first, then
convention, then the scored fallback. -/
def pickMainTex (wd : List String) (t : Tree) : Except String (List String) :=
  match pickMagicRoot wd t with
  | some c => .ok c
  | none => conventionOrScore wd t

/-! ## Compile pipeline (`compile_zip_bytes_to_pdf`, latex_compile.py lines 110-172)

The external toolchain (`_run`, lines 9-18: `subprocess.run` without
`check=True`, stdout and stderr merged) is modelled by the list of completed
invocations — each with its captured combined output and its exit status, which
the code never reads — together with the filesystem tree left behind after all
invocations.  Timeouts and a missing `latexmk` binary take other paths
(exception / fallback command list) and are outside these claims; in every
modelled run the same final artifact check decides the outcome. -/

/-- One completed external-process invocation: captured combined output and the
exit status `subprocess.run` reports (never consulted by the code). -/
structure Invocation : Type where
  output : String
  exitCode : Int
deriving DecidableEq

/-- A completed toolchain run: the invocations in order, and the working tree
as the invocations left it. -/
structure ToolchainRun : Type where
  invocations : List Invocation
  finalTree : Tree
deriving DecidableEq

/-- The accumulated Compile Log: `logs += _run(...)` in invocation order. -/
def compileLog (run : ToolchainRun) : String :=
  run.invocations.foldl (fun acc i => acc ++ i.output) ""

/-- Python `logs[-8000:]`: the final (at most) `n` characters. -/
def pyTail (n : Nat) (s : String) : String :=
  String.mk (s.data.drop (s.data.length - n))

/-- Python `Path.stem`: the final component without its last extension; a
leading or trailing dot is not an extension separator. -/
def stemOf (name : String) : String :=
  let cs := name.data
  let n := cs.length
  match ((List.range n).filter (fun i => decide (cs.getD i ' ' = '.'))).getLast? with
  | some i => if 0 < i ∧ i < n - 1 then String.mk (cs.take i) else name
  | none => name

/-- The expected output artifact `tex_dir / f"{stem}.pdf"` (lines 123-124,
167), as a path relative to the working directory, for the absolute resolved
root `root = wd ++ rel`. -/
def pdfRelOf (wd : List String) (root : List String) : List String :=
  (root.drop wd.length).dropLast ++ [stemOf (root.getLastD "") ++ ".pdf"]

/-- Python `pdf_path.read_bytes()`: contents of a regular file, an error (an
uncaught `IsADirectoryError` in the code) otherwise. -/
def readFileBytes (t : Tree) (p : List String) : Except String String :=
  match findEntry t p with
  | some e =>
    match e.kind with
    | .file c => .ok c
    | .dir => .error "read_bytes: is a directory"
  | none => .error "read_bytes: no such file"

/-- Model of `compile_zip_bytes_to_pdf` after extraction: resolve the root,
run the toolchain, then let the presence of `<stem>.pdf` alone decide success
(lines 167-172). -/
def compilePipeline (wd : List String) (t : Tree) (run : ToolchainRun) :
    Except String String :=
  match pickMainTex wd t with
  | .error e => .error e
  | .ok root =>
    if pathExists run.finalTree (pdfRelOf wd root) then
      readFileBytes run.finalTree (pdfRelOf wd root)
    else .error ("PDF not produced. Log tail:\n" ++ pyTail 8000 (compileLog run))

/-! ## HTTP layer (main.py)

`APP_API_KEY = os.environ.get("APP_API_KEY", "")`, so an unset secret is the
empty string.  The object store is abstracted: the endpoint model records the
storage operations it performs, in order, next to the response, and takes the
outcomes of the fetch and of the compile pipeline as oracle arguments. -/

structure AppConfig : Type where
  appApiKey : String
  spacesBucket : String
deriving DecidableEq

structure HttpResponse : Type where
  status : Nat
  body : String
deriving DecidableEq

inductive StorageOp : Type
  | fetch (bucket key : String)
  | delete (bucket key : String)
deriving DecidableEq

/-- Model of `require_api_key` (main.py lines 22-24): succeeds only when the
configured secret is nonempty and the header matches it exactly. -/
def requireApiKeyOk (cfg : AppConfig) (xApiKey : Option String) : Bool :=
  if cfg.appApiKey = "" ∨ xApiKey ≠ some cfg.appApiKey then false else true

/-- Model of the `/presign` endpoint (main.py lines 38-49); `presignedUrl`
stands for the URL the object-store gateway would return. -/
def presignEndpoint (cfg : AppConfig) (xApiKey : Option String)
    (presignedUrl : String) : HttpResponse :=
  if !requireApiKeyOk cfg xApiKey then ⟨401, "Unauthorized"⟩
  else if cfg.spacesBucket = "" then ⟨500, "SPACES_BUCKET not set"⟩
  else ⟨200, presignedUrl⟩

/-- Model of the `/compile` endpoint (main.py lines 57-77): auth, then key
validation, and only then the storage fetch, the pipeline, and (in `finally`)
the best-effort delete.  `fetched` is the fetch outcome, `compiled` the
pipeline outcome on the fetched bytes. -/
def compileEndpoint (cfg : AppConfig) (xApiKey : Option String) (key : String)
    (deleteAfter : Bool) (fetched : Except String String)
    (compiled : String → Except String String) : HttpResponse × List StorageOp :=
  if !requireApiKeyOk cfg xApiKey then (⟨401, "Unauthorized"⟩, [])
  else if !(strStartsWith key "uploads/") || !(strEndsWith key ".zip") then
    (⟨400, "Invalid key"⟩, [])
  else
    let ops := [StorageOp.fetch cfg.spacesBucket key]
    let ops := if deleteAfter then ops ++ [StorageOp.delete cfg.spacesBucket key] else ops
    match fetched with
    | .error e => (⟨400, e⟩, ops)
    | .ok zipBytes =>
      match compiled zipBytes with
      | .error e => (⟨400, e⟩, ops)
      | .ok pdf => (⟨200, pdf⟩, ops)

/-! ## Lemmas about the first-wins maximum scan -/

theorem chooseMaxCore_eq_or_mem {α : Type} (beats : α → α → Bool) :
    ∀ (l : List α) (b : α), chooseMaxCore beats b l = b ∨ chooseMaxCore beats b l ∈ l := by
  intro l
  induction l with
  | nil => intro b; left; rfl
  | cons x l ih =>
    intro b
    rw [show chooseMaxCore beats b (x :: l) =
      chooseMaxCore beats (if beats x b then x else b) l from rfl]
    rcases ih (if beats x b then x else b) with h | h
    · rw [h]
      by_cases hb : beats x b = true
      · rw [if_pos hb]; right; exact List.mem_cons_self x l
      · rw [if_neg hb]; left; rfl
    · right; exact List.mem_cons_of_mem _ h

theorem chooseMaxCore_not_beats {α : Type} (beats : α → α → Bool)
    (htr : ∀ x y z, beats z y = true → beats x y = false → beats x z = false) :
    ∀ (l : List α) (b y : α), beats y b = false →
      beats y (chooseMaxCore beats b l) = false := by
  intro l
  induction l with
  | nil => intro b y h; exact h
  | cons x l ih =>
    intro b y h
    show beats y (chooseMaxCore beats (if beats x b then x else b) l) = false
    apply ih
    by_cases hxb : beats x b = true
    · rw [if_pos hxb]; exact htr y b x hxb h
    · rw [if_neg hxb]; exact h

theorem chooseMaxCore_best {α : Type} (beats : α → α → Bool)
    (htr : ∀ x y z, beats z y = true → beats x y = false → beats x z = false)
    (hirr : ∀ x, beats x x = false)
    (hasym : ∀ x y, beats x y = true → beats y x = false) :
    ∀ (l : List α) (b y : α), (y = b ∨ y ∈ l) →
      beats y (chooseMaxCore beats b l) = false := by
  intro l
  induction l with
  | nil =>
    rintro b y (rfl | h)
    · exact hirr y
    · exact absurd h (List.not_mem_nil y)
  | cons x l ih =>
    rintro b y (rfl | hy)
    · show beats y (chooseMaxCore beats (if beats x y then x else y) l) = false
      apply chooseMaxCore_not_beats beats htr
      by_cases hxb : beats x y = true
      · rw [if_pos hxb]; exact hasym x y hxb
      · rw [if_neg hxb]; exact hirr y
    · rcases List.mem_cons.1 hy with rfl | hy
      · show beats y (chooseMaxCore beats (if beats y b then y else b) l) = false
        apply chooseMaxCore_not_beats beats htr
        by_cases hxb : beats y b = true
        · rw [if_pos hxb]; exact hirr y
        · rw [if_neg hxb]
          cases h : beats y b with
          | false => rfl
          | true => exact absurd h hxb
      · exact ih (if beats x b then x else b) y (Or.inr hy)

theorem chooseMax_mem {α : Type} (beats : α → α → Bool) {l : List α} {m : α}
    (h : chooseMax beats l = some m) : m ∈ l := by
  cases l with
  | nil => cases h
  | cons x l =>
    simp only [chooseMax, Option.some.injEq] at h
    subst h
    rcases chooseMaxCore_eq_or_mem beats l x with h2 | h2
    · rw [h2]; exact List.mem_cons_self x l
    · exact List.mem_cons_of_mem _ h2

theorem chooseMax_best {α : Type} (beats : α → α → Bool)
    (htr : ∀ x y z, beats z y = true → beats x y = false → beats x z = false)
    (hirr : ∀ x, beats x x = false)
    (hasym : ∀ x y, beats x y = true → beats y x = false)
    {l : List α} {m : α} (h : chooseMax beats l = some m) :
    ∀ y ∈ l, beats y m = false := by
  cases l with
  | nil => cases h
  | cons x l =>
    simp only [chooseMax, Option.some.injEq] at h
    subst h
    intro y hy
    rcases List.mem_cons.1 hy with rfl | hy
    · exact chooseMaxCore_best beats htr hirr hasym l y y (Or.inl rfl)
    · exact chooseMaxCore_best beats htr hirr hasym l x y (Or.inr hy)

/-! ## Lemmas about the code-point order on character lists -/

theorem charListLt_irrefl : ∀ l : List Char, charListLt l l = false := by
  intro l
  induction l with
  | nil => rfl
  | cons a as ih =>
    show (if a < a then true else if a < a then false else charListLt as as) = false
    rw [if_neg (lt_irrefl a), if_neg (lt_irrefl a)]
    exact ih

theorem charListLt_asymm :
    ∀ a b : List Char, charListLt a b = true → charListLt b a = false := by
  intro a
  induction a with
  | nil =>
    intro b hab
    cases b with
    | nil => cases hab
    | cons y ys => rfl
  | cons x xs ih =>
    intro b hab
    cases b with
    | nil => cases hab
    | cons y ys =>
      show (if y < x then true else if x < y then false else charListLt ys xs) = false
      by_cases h1 : x < y
      · rw [if_neg (asymm h1), if_pos h1]
      · rw [if_neg ?hyx, if_neg h1]
        case hyx =>
          intro hyx
          rw [show charListLt (x :: xs) (y :: ys) =
            (if x < y then true else if y < x then false else charListLt xs ys) from rfl,
            if_neg h1, if_pos hyx] at hab
          cases hab
        · apply ih
          rw [show charListLt (x :: xs) (y :: ys) =
            (if x < y then true else if y < x then false else charListLt xs ys) from rfl,
            if_neg h1] at hab
          by_cases hyx : y < x
          · rw [if_pos hyx] at hab; cases hab
          · rw [if_neg hyx] at hab; exact hab

theorem charListLt_trans :
    ∀ a b c : List Char, charListLt a b = true → charListLt b c = true →
      charListLt a c = true := by
  intro a
  induction a with
  | nil =>
    intro b c hab hbc
    cases b with
    | nil => cases hab
    | cons y ys =>
      cases c with
      | nil => cases hbc
      | cons z zs => rfl
  | cons x xs ih =>
    intro b c hab hbc
    cases b with
    | nil => cases hab
    | cons y ys =>
      cases c with
      | nil => cases hbc
      | cons z zs =>
        rw [show charListLt (x :: xs) (y :: ys) =
          (if x < y then true else if y < x then false else charListLt xs ys) from rfl] at hab
        rw [show charListLt (y :: ys) (z :: zs) =
          (if y < z then true else if z < y then false else charListLt ys zs) from rfl] at hbc
        rw [show charListLt (x :: xs) (z :: zs) =
          (if x < z then true else if z < x then false else charListLt xs zs) from rfl]
        rcases lt_trichotomy x y with h1 | h1 | h1
        · rcases lt_trichotomy y z with h2 | h2 | h2
          · rw [if_pos (lt_trans h1 h2)]
          · subst h2; rw [if_pos h1]
          · rw [if_neg (lt_asymm h2), if_pos h2] at hbc; cases hbc
        · subst h1
          rcases lt_trichotomy x z with h2 | h2 | h2
          · rw [if_pos h2]
          · subst h2
            rw [if_neg (lt_irrefl x), if_neg (lt_irrefl x)] at hab hbc ⊢
            exact ih ys zs hab hbc
          · rw [if_neg (lt_asymm h2), if_pos h2] at hbc; cases hbc
        · rw [if_neg (lt_asymm h1), if_pos h1] at hab; cases hab

/-! ## The two tie-break orders are strict orders -/

theorem beats2_irrefl (decls : List (List String)) :
    ∀ x, beats2 decls x x = false := by
  intro x
  simp only [beats2, decide_eq_false_iff_not]
  omega

theorem beats2_asymm (decls : List (List String)) :
    ∀ x y, beats2 decls x y = true → beats2 decls y x = false := by
  intro x y h
  simp only [beats2, decide_eq_true_eq] at h
  simp only [beats2, decide_eq_false_iff_not]
  omega

theorem beats2_htr (decls : List (List String)) :
    ∀ x y z, beats2 decls z y = true → beats2 decls x y = false →
      beats2 decls x z = false := by
  intro x y z h1 h2
  simp only [beats2, decide_eq_true_eq] at h1
  simp only [beats2, decide_eq_false_iff_not] at h2 ⊢
  omega

theorem beats3_irrefl (wd : List String) (t : Tree) :
    ∀ x, beats3 wd t x x = false := by
  intro x
  simp only [beats3, decide_eq_false_iff_not]
  rintro (h | ⟨-, h⟩ | ⟨-, -, h⟩)
  · omega
  · omega
  · rw [charListLt_irrefl] at h; cases h

theorem beats3_asymm (wd : List String) (t : Tree) :
    ∀ x y, beats3 wd t x y = true → beats3 wd t y x = false := by
  intro x y h
  simp only [beats3, decide_eq_true_eq] at h
  simp only [beats3, decide_eq_false_iff_not]
  rintro (h2 | ⟨he2, hl2⟩ | ⟨he2, hl2, hs2⟩) <;>
    rcases h with h1 | ⟨he1, hl1⟩ | ⟨he1, hl1, hs1⟩ <;>
      try omega
  rw [charListLt_asymm _ _ hs1] at hs2
  cases hs2

theorem beats3_trans (wd : List String) (t : Tree) :
    ∀ x y z, beats3 wd t x y = true → beats3 wd t y z = true →
      beats3 wd t x z = true := by
  intro x y z hxy hyz
  simp only [beats3, decide_eq_true_eq] at hxy hyz ⊢
  rcases hxy with h1 | ⟨he1, hl1⟩ | ⟨he1, hl1, hs1⟩ <;>
    rcases hyz with h2 | ⟨he2, hl2⟩ | ⟨he2, hl2, hs2⟩ <;>
      first
        | exact Or.inl (by omega)
        | exact Or.inr (Or.inl (by omega))
        | exact Or.inr (Or.inr ⟨by omega, by omega, charListLt_trans _ _ _ hs2 hs1⟩)

theorem beats3_htr (wd : List String) (t : Tree) :
    ∀ x y z, beats3 wd t z y = true → beats3 wd t x y = false →
      beats3 wd t x z = false := by
  intro x y z hzy hxy
  cases hxz : beats3 wd t x z with
  | false => rfl
  | true =>
    have h := beats3_trans wd t x z y hxz hzy
    rw [hxy] at h
    cases h

/-! ## First-occurrence deduplication -/

theorem mem_firstDedupAux {α : Type} [DecidableEq α] :
    ∀ (l seen : List α) (x : α),
      x ∈ firstDedupAux seen l ↔ (x ∈ l ∧ x ∉ seen) := by
  intro l
  induction l with
  | nil => intro seen x; simp [firstDedupAux]
  | cons a l ih =>
    intro seen x
    by_cases ha : a ∈ seen
    · rw [show firstDedupAux seen (a :: l) = firstDedupAux seen l from by
        simp [firstDedupAux, ha]]
      rw [ih]
      constructor
      · rintro ⟨hx, hs⟩; exact ⟨List.mem_cons_of_mem _ hx, hs⟩
      · rintro ⟨hx, hs⟩
        rcases List.mem_cons.1 hx with rfl | hx
        · exact absurd ha hs
        · exact ⟨hx, hs⟩
    · rw [show firstDedupAux seen (a :: l) = a :: firstDedupAux (a :: seen) l from by
        simp [firstDedupAux, ha]]
      constructor
      · intro hx
        rcases List.mem_cons.1 hx with rfl | hx
        · exact ⟨List.mem_cons_self _ _, ha⟩
        · rw [ih] at hx
          refine ⟨List.mem_cons_of_mem _ hx.1, ?_⟩
          intro hs
          exact hx.2 (List.mem_cons_of_mem _ hs)
      · rintro ⟨hx, hs⟩
        rcases List.mem_cons.1 hx with rfl | hx
        · exact List.mem_cons_self _ _
        · by_cases hxa : x = a
          · subst hxa; exact List.mem_cons_self _ _
          · apply List.mem_cons_of_mem
            rw [ih]
            refine ⟨hx, ?_⟩
            intro hmem
            rcases List.mem_cons.1 hmem with h' | h'
            · exact hxa h'
            · exact hs h'

theorem mem_firstDedup {α : Type} [DecidableEq α] (l : List α) (x : α) :
    x ∈ firstDedup l ↔ x ∈ l := by
  rw [firstDedup, mem_firstDedupAux]
  simp

theorem firstDedupAux_eq_nil {α : Type} [DecidableEq α] (seen : List α) :
    ∀ l : List α, (∀ x ∈ l, x ∈ seen) → firstDedupAux seen l = [] := by
  intro l
  induction l with
  | nil => intro _; rfl
  | cons a l ih =>
    intro h
    have ha : a ∈ seen := h a (List.mem_cons_self _ _)
    rw [show firstDedupAux seen (a :: l) = firstDedupAux seen l from by
      simp [firstDedupAux, ha]]
    exact ih (fun x hx => h x (List.mem_cons_of_mem _ hx))

theorem firstDedup_all_eq {α : Type} [DecidableEq α] (c : α) :
    ∀ l : List α, l ≠ [] → (∀ x ∈ l, x = c) → firstDedup l = [c] := by
  intro l hne hall
  cases l with
  | nil => exact absurd rfl hne
  | cons a l =>
    have ha : a = c := hall a (List.mem_cons_self _ _)
    subst ha
    have h0 : firstDedupAux [a] l = [] := by
      apply firstDedupAux_eq_nil
      intro x hx
      rw [hall x (List.mem_cons_of_mem _ hx)]
      exact List.mem_cons_self _ _
    rw [show firstDedup (a :: l) = a :: firstDedupAux [a] l from by
      simp [firstDedup, firstDedupAux], h0]

/-! ## Lemmas about the path model -/

theorem self_mem_prefixesOf {p : List String} (hp : p ≠ []) : p ∈ prefixesOf p := by
  have hl : 0 < p.length := List.length_pos.2 hp
  simp only [prefixesOf, List.mem_map, List.mem_range]
  exact ⟨p.length - 1, by omega, by
    rw [show p.length - 1 + 1 = p.length from by omega, List.take_length]⟩

theorem take_mem_prefixesOf {p : List String} {k : Nat} (h1 : 0 < k)
    (h2 : k ≤ p.length) : p.take k ∈ prefixesOf p := by
  simp only [prefixesOf, List.mem_map, List.mem_range]
  exact ⟨k - 1, by omega, by rw [show k - 1 + 1 = k from by omega]⟩

theorem mem_allPaths_iff {t : Tree} {p : List String} :
    p ∈ allPaths t ↔ ∃ e ∈ t, p ∈ prefixesOf e.path := by
  rw [allPaths, mem_firstDedup]
  simp only [List.mem_flatten, List.mem_map]
  constructor
  · rintro ⟨s, ⟨e, he, rfl⟩, hp⟩; exact ⟨e, he, hp⟩
  · rintro ⟨e, he, hp⟩; exact ⟨prefixesOf e.path, ⟨e, he, rfl⟩, hp⟩

theorem findEntry_eq_some {t : Tree} {p : List String} {e : FSEntry}
    (h : findEntry t p = some e) : e ∈ t ∧ e.path = p := by
  have h' : t.find? (fun x => decide (x.path = p)) = some e := h
  have hp : e.path = p := by
    have hx := List.find?_some h'
    simpa using hx
  exact ⟨List.mem_of_find?_eq_some h', hp⟩

theorem findEntry_isSome_of_mem {t : Tree} {e : FSEntry} (he : e ∈ t) :
    ∃ e', findEntry t e.path = some e' := by
  have h : (t.find? (fun x => decide (x.path = e.path))).isSome := by
    rw [List.find?_isSome]
    exact ⟨e, he, by simp⟩
  exact Option.isSome_iff_exists.1 h

theorem pathExists_of_findEntry {t : Tree} {p : List String} {e : FSEntry}
    (h : findEntry t p = some e) : pathExists t p = true := by
  simp only [pathExists, isFile, isDirAt, h]
  cases e.kind <;> simp [entryIsFile]

theorem pathExists_of_isFile {t : Tree} {p : List String}
    (h : isFile t p = true) : pathExists t p = true := by
  simp [pathExists, h]

theorem exists_entry_of_isFile {t : Tree} {p : List String}
    (h : isFile t p = true) :
    ∃ e ∈ t, e.path = p ∧ entryIsFile e.kind = true := by
  cases hfe : findEntry t p with
  | none => simp only [isFile, hfe] at h; cases h
  | some e =>
    obtain ⟨he, hep⟩ := findEntry_eq_some hfe
    simp only [isFile, hfe] at h
    exact ⟨e, he, hep, h⟩

theorem pathExists_of_mem_allPaths {t : Tree} {p : List String}
    (h : p ∈ allPaths t) : pathExists t p = true ∧ p ≠ [] := by
  rw [mem_allPaths_iff] at h
  obtain ⟨e, he, hp⟩ := h
  simp only [prefixesOf, List.mem_map, List.mem_range] at hp
  obtain ⟨i, hi, rfl⟩ := hp
  have hlen : (e.path.take (i + 1)).length = i + 1 := by
    rw [List.length_take]; omega
  refine ⟨?_, ?_⟩
  · by_cases hfull : i + 1 = e.path.length
    · rw [hfull, List.take_length]
      obtain ⟨e', he'⟩ := findEntry_isSome_of_mem he
      exact pathExists_of_findEntry he'
    · have hany : t.any (fun e' => (e.path.take (i + 1)).isPrefixOf e'.path
          && decide ((e.path.take (i + 1)).length < e'.path.length)) = true := by
        rw [List.any_eq_true]
        refine ⟨e, he, ?_⟩
        rw [Bool.and_eq_true]
        refine ⟨List.isPrefixOf_iff_prefix.2 (List.take_prefix _ _), ?_⟩
        rw [hlen]
        exact decide_eq_true (by omega)
      have hid : isDirAt t (e.path.take (i + 1)) = true := by
        have hunf : isDirAt t (e.path.take (i + 1)) =
            ((match findEntry t (e.path.take (i + 1)) with
              | some e' => !entryIsFile e'.kind
              | none => false)
            || t.any (fun e' => (e.path.take (i + 1)).isPrefixOf e'.path
                && decide ((e.path.take (i + 1)).length < e'.path.length))) := rfl
        rw [hunf, hany, Bool.or_true]
      have hpe : pathExists t (e.path.take (i + 1)) =
          (isFile t (e.path.take (i + 1)) || isDirAt t (e.path.take (i + 1))) := rfl
      rw [hpe, hid, Bool.or_true]
  · intro hnil
    rw [hnil] at hlen
    simp at hlen

theorem mem_allPaths_of_pathExists {t : Tree} {p : List String}
    (hex : pathExists t p = true) (hp : p ≠ []) : p ∈ allPaths t := by
  rw [mem_allPaths_iff]
  rw [pathExists, Bool.or_eq_true] at hex
  rcases hex with hf | hd
  · obtain ⟨e, he, hep, -⟩ := exists_entry_of_isFile hf
    refine ⟨e, he, ?_⟩
    rw [hep]
    exact self_mem_prefixesOf hp
  · cases hfe : findEntry t p with
    | some e =>
      obtain ⟨he, hep⟩ := findEntry_eq_some hfe
      refine ⟨e, he, ?_⟩
      rw [hep]
      exact self_mem_prefixesOf hp
    | none =>
      simp only [isDirAt, hfe, Bool.false_or] at hd
      obtain ⟨e, he, hcond⟩ := List.any_eq_true.1 hd
      rw [Bool.and_eq_true] at hcond
      obtain ⟨hpre, hlt⟩ := hcond
      obtain ⟨s, hs⟩ := List.isPrefixOf_iff_prefix.1 hpre
      have hlen : p.length < e.path.length := of_decide_eq_true hlt
      have hpe : e.path.take p.length = p := by rw [← hs, List.take_left]
      refine ⟨e, he, ?_⟩
      rw [← hpe]
      exact take_mem_prefixesOf (List.length_pos.2 hp) (le_of_lt hlen)

/-! ## Lemmas about the declaration stage -/

theorem mem_magicDecls {wd : List String} {t : Tree} {c : List String}
    (h : c ∈ magicDecls wd t) :
    wd.isPrefixOf c = true ∧ isFile t (c.drop wd.length) = true ∧
      ∃ p ∈ rglobTex t, ∃ r, extractMagicRoot (readText t p) = some r ∧
        resolveCand wd p.dropLast r = c := by
  simp only [magicDecls, List.mem_filterMap] at h
  obtain ⟨p, hp, hf⟩ := h
  by_cases h0 : readText t p = ""
  · rw [if_pos h0] at hf; cases hf
  · rw [if_neg h0] at hf
    cases hr : extractMagicRoot (readText t p) with
    | none => rw [hr] at hf; cases hf
    | some r =>
      rw [hr] at hf
      have hf' : (if (wd.isPrefixOf (resolveCand wd p.dropLast r)
          && isFile t ((resolveCand wd p.dropLast r).drop wd.length)) = true then
            some (resolveCand wd p.dropLast r)
          else none) = some c := hf
      by_cases hg : (wd.isPrefixOf (resolveCand wd p.dropLast r)
          && isFile t ((resolveCand wd p.dropLast r).drop wd.length)) = true
      · rw [if_pos hg] at hf'
        rw [Bool.and_eq_true] at hg
        obtain ⟨h1, h2⟩ := hg
        cases hf'
        exact ⟨h1, h2, p, hp, r, hr, rfl⟩
      · rw [if_neg hg] at hf'; cases hf'

theorem magicDecls_eq_nil {wd : List String} {t : Tree}
    (h : ∀ p ∈ rglobTex t,
      Option.all (fun r => !(wd.isPrefixOf (resolveCand wd p.dropLast r)))
        (extractMagicRoot (readText t p)) = true) :
    magicDecls wd t = [] := by
  rw [magicDecls, List.filterMap_eq_nil_iff]
  intro p hp
  have hall := h p hp
  by_cases h0 : readText t p = ""
  · rw [if_pos h0]
  · rw [if_neg h0]
    cases hr : extractMagicRoot (readText t p) with
    | none => rfl
    | some r =>
      rw [hr] at hall
      have hall' : (!(wd.isPrefixOf (resolveCand wd p.dropLast r))) = true := hall
      have hpre : wd.isPrefixOf (resolveCand wd p.dropLast r) = false := by
        cases hb : wd.isPrefixOf (resolveCand wd p.dropLast r)
        · rfl
        · rw [hb] at hall'; cases hall'
      show (if (wd.isPrefixOf (resolveCand wd p.dropLast r)
          && isFile t ((resolveCand wd p.dropLast r).drop wd.length)) = true then
            some (resolveCand wd p.dropLast r)
          else none) = none
      rw [hpre, Bool.false_and]
      simp

/-! ## Concrete trees used to instantiate the claims -/

def c1cexTree : Tree :=
  [⟨["a.tex"], .file "% !TEX root = b.tex"⟩,
   ⟨["b.tex"], .file "x"⟩,
   ⟨["x.tex"], .file "% !TeX root = sub/c.tex"⟩,
   ⟨["sub", "c.tex"], .file "y"⟩]

def c1amTree : Tree :=
  [⟨["a.tex"], .file "% !TEX root = b.tex"⟩,
   ⟨["b.tex"], .file "x"⟩,
   ⟨["main.tex"], .file "hello"⟩]

def c2wTree : Tree :=
  [⟨["a.tex"], .file "% !TEX root = ../../escape.tex"⟩,
   ⟨["escape.tex"], .file "x"⟩]

def c3cexTree : Tree := [⟨["main.tex"], .dir⟩]

def c3amTree : Tree := [⟨["notes.md"], .file "hello"⟩]

def c4magTree : Tree :=
  [⟨["a.tex"], .file "% !TEX root = b.tex"⟩,
   ⟨["c.tex"], .file "% !tex root = b.tex"⟩,
   ⟨["d.tex"], .file "% !TEX root = dd.tex"⟩,
   ⟨["b.tex"], .file "x"⟩,
   ⟨["dd.tex"], .file "y"⟩]

def c4scoreTree : Tree :=
  [⟨["u.tex"], .file "\\documentclass"⟩,
   ⟨["d", "v.tex"], .file "\\documentclass"⟩]

def c5cexTree : Tree :=
  [⟨["sub", "main.tex"], .file ""⟩,
   ⟨["a.tex"], .file "\\documentclass"⟩]

def c5amTree : Tree :=
  [⟨["frag.tex"], .file "hello"⟩,
   ⟨["b.tex"], .file "\\documentclass"⟩]

def c6cexTree : Tree :=
  [⟨["a.tex"], .file "% !TEX root = b.txt"⟩,
   ⟨["b.txt"], .file "hello"⟩]

def c6amTree : Tree := [⟨["main.tex"], .file "hi"⟩]

def c7Tree : Tree := [⟨["main.tex"], .file "x"⟩]

def c7Run : ToolchainRun :=
  ⟨[⟨"warning: overfull hbox", 1⟩], [⟨["main.pdf"], .file "PDFBYTES"⟩]⟩

def c7RunZero : ToolchainRun :=
  ⟨[⟨"warning: overfull hbox", 0⟩], [⟨["main.pdf"], .file "PDFBYTES"⟩]⟩

def c8Tree : Tree := [⟨["main.tex"], .file "x"⟩]

def c8Run : ToolchainRun := ⟨[⟨"! LaTeX Error: missing document.", 1⟩], []⟩

/-! ## Claim C2 -/

/-- C2 (confirmed): every root-declaration whose resolved, normalized path
escapes the working directory is discarded without an error: whatever the
declaration stage returns is inside the working directory (and an existing
regular file there), and if every declaration in the tree resolves to an
escaping path the stage returns nothing and resolution falls through to the
next stage. -/
theorem c2_escaping_declarations_discarded (wd : List String) (t : Tree) :
    (∀ c, pickMagicRoot wd t = some c →
      wd.isPrefixOf c = true ∧ isFile t (c.drop wd.length) = true) ∧
    ((∀ p ∈ rglobTex t,
        Option.all (fun r => !(wd.isPrefixOf (resolveCand wd p.dropLast r)))
          (extractMagicRoot (readText t p)) = true) →
      pickMagicRoot wd t = none ∧ pickMainTex wd t = conventionOrScore wd t) := by
  constructor
  · intro c hc
    have hmem : c ∈ magicDecls wd t := (mem_firstDedup _ _).1 (chooseMax_mem _ hc)
    obtain ⟨h1, h2, -⟩ := mem_magicDecls hmem
    exact ⟨h1, h2⟩
  · intro h
    have hnil : magicDecls wd t = [] := magicDecls_eq_nil h
    have hm : pickMagicRoot wd t = none := by
      show chooseMax (beats2 (magicDecls wd t)) (firstDedup (magicDecls wd t)) = none
      rw [hnil]
      rfl
    refine ⟨hm, ?_⟩
    simp only [pickMainTex, hm]

/-- C2 witness: a tree whose only declaration resolves to a path outside the
working directory; the declaration stage returns nothing and resolution falls
through. -/
theorem c2_witness :
    pickMagicRoot ["w"] c2wTree = none ∧
    pickMainTex ["w"] c2wTree = conventionOrScore ["w"] c2wTree :=
  (c2_escaping_declarations_discarded ["w"] c2wTree).2 (by decide)

/-! ## Claim C3 -/

/-- C3 (counterexample): a tree with no regular files at all — only a
directory named main.tex — so it contains zero `.tex` files, yet resolution
returns a path instead of failing with the no-document error
(`Path.exists()` is true for the directory at step 2 of the resolver). -/
theorem c3_counterexample :
    (∀ e ∈ c3cexTree, entryIsFile e.kind = false) ∧
    pickMainTex ["w"] c3cexTree = .ok ["w", "main.tex"] :=
  ⟨by decide, rfl⟩

/-- C3 (amended): if no path in the tree — file or directory, at any depth —
has a name ending in ".tex", then resolution fails with the
"No .tex file found in the zip." error. -/
theorem c3_amended_no_tex_entry_errors (wd : List String) (t : Tree)
    (h : ∀ p ∈ allPaths t, texName (p.getLastD "") = false) :
    pickMainTex wd t = .error "No .tex file found in the zip." := by
  have hglob : rglobTex t = [] := by
    rw [rglobTex, List.filter_eq_nil_iff]
    intro p hp
    rw [h p hp]
    simp
  have hdecls : magicDecls wd t = [] := by
    rw [magicDecls, hglob]
    rfl
  have hm : pickMagicRoot wd t = none := by
    show chooseMax (beats2 (magicDecls wd t)) (firstDedup (magicDecls wd t)) = none
    rw [hdecls]
    rfl
  have hmain : pathExists t ["main.tex"] = false := by
    cases hb : pathExists t ["main.tex"] with
    | false => rfl
    | true =>
      have hmem := mem_allPaths_of_pathExists hb (by simp)
      have hcontra := h _ hmem
      exact absurd hcontra (by decide)
  simp only [pickMainTex, hm]
  simp only [conventionOrScore, hmain, hglob]
  simp only [Bool.false_eq_true, if_false]
  rfl

/-- C3 amended witness: a tree holding one ordinary non-tex file resolves to
the no-document error. -/
theorem c3_amended_witness :
    pickMainTex ["w"] c3amTree = .error "No .tex file found in the zip." :=
  c3_amended_no_tex_entry_errors ["w"] c3amTree (by decide)

/-! ## Claim C9 -/

/-- C9 (confirmed): a `/compile` request whose key does not start with
"uploads/" or does not end with ".zip" triggers no storage operation at all,
is never answered 200, and — whenever it passes the API-key check, the only
check that precedes key validation — is rejected with a 400 "Invalid key"
response. -/
theorem c9_bad_key_rejected_before_fetch
    (cfg : AppConfig) (x : Option String) (key : String) (da : Bool)
    (fetched : Except String String) (compiled : String → Except String String)
    (hkey : ¬(strStartsWith key "uploads/" = true ∧ strEndsWith key ".zip" = true)) :
    (compileEndpoint cfg x key da fetched compiled).2 = [] ∧
    (compileEndpoint cfg x key da fetched compiled).1.status ≠ 200 ∧
    (requireApiKeyOk cfg x = true →
      compileEndpoint cfg x key da fetched compiled = (⟨400, "Invalid key"⟩, [])) := by
  have hcond : (!(strStartsWith key "uploads/") || !(strEndsWith key ".zip")) = true := by
    cases h1 : strStartsWith key "uploads/" <;> cases h2 : strEndsWith key ".zip" <;>
      simp_all
  cases hreq : requireApiKeyOk cfg x with
  | false => simp [compileEndpoint, hreq]
  | true => simp [compileEndpoint, hreq, hcond]

/-- C9 witness: an authenticated request with key "wrong.txt" is answered 400
with no storage operation. -/
theorem c9_witness :
    (compileEndpoint ⟨"k", "b"⟩ (some "k") "wrong.txt" true (.ok "z")
      (fun _ => .ok "p")).2 = [] ∧
    (compileEndpoint ⟨"k", "b"⟩ (some "k") "wrong.txt" true (.ok "z")
      (fun _ => .ok "p")).1.status ≠ 200 ∧
    (requireApiKeyOk ⟨"k", "b"⟩ (some "k") = true →
      compileEndpoint ⟨"k", "b"⟩ (some "k") "wrong.txt" true (.ok "z")
        (fun _ => .ok "p") = (⟨400, "Invalid key"⟩, [])) :=
  c9_bad_key_rejected_before_fetch ⟨"k", "b"⟩ (some "k") "wrong.txt" true (.ok "z")
    (fun _ => .ok "p") (by decide)

/-! ## Claim C10 -/

/-- C10 (confirmed): when the configured API-key secret is unset or empty,
`/presign` and `/compile` answer 401 Unauthorized for every supplied header
value — in particular an empty or missing header never authenticates against
the empty secret — and `/compile` touches no storage. -/
theorem c10_empty_secret_always_unauthorized
    (cfg : AppConfig) (x : Option String) (key : String) (da : Bool)
    (fetched : Except String String) (compiled : String → Except String String)
    (url : String) (hsec : cfg.appApiKey = "") :
    presignEndpoint cfg x url = ⟨401, "Unauthorized"⟩ ∧
    compileEndpoint cfg x key da fetched compiled = (⟨401, "Unauthorized"⟩, []) := by
  have hreq : requireApiKeyOk cfg x = false := by
    rw [requireApiKeyOk, if_pos (Or.inl hsec)]
  constructor
  · simp [presignEndpoint, hreq]
  · simp [compileEndpoint, hreq]

/-- C10 witness: with an empty configured secret, a client sending the empty
header string is still answered 401 on both endpoints. -/
theorem c10_witness :
    presignEndpoint ⟨"", "bucket"⟩ (some "") "url" = ⟨401, "Unauthorized"⟩ ∧
    compileEndpoint ⟨"", "bucket"⟩ (some "") "uploads/a.zip" true (.ok "z")
      (fun _ => .ok "p") = (⟨401, "Unauthorized"⟩, []) :=
  c10_empty_secret_always_unauthorized ⟨"", "bucket"⟩ (some "") "uploads/a.zip" true
    (.ok "z") (fun _ => .ok "p") "url" rfl

/-! ## Claim C1 -/

/-- C1 (counterexample): x.tex declares the root sub/c.tex, which exists as a
regular file inside the working directory (resolved relative to x.tex's
directory), yet resolution returns w/b.tex — the declared candidate with the
shorter path among equal tallies — not sub/c.tex.  With several conflicting
declarations, "resolution returns B" is false as universally stated. -/
theorem c1_counterexample :
    extractMagicRoot (readText c1cexTree ["x.tex"]) = some "sub/c.tex" ∧
    resolveCand ["w"] (["x.tex"] : List String).dropLast "sub/c.tex" =
      ["w"] ++ ["sub", "c.tex"] ∧
    isFile c1cexTree ["sub", "c.tex"] = true ∧
    pickMainTex ["w"] c1cexTree = .ok ["w", "b.tex"] ∧
    ["w", "b.tex"] ≠ ["w"] ++ ["sub", "c.tex"] :=
  ⟨rfl, rfl, rfl, rfl, by decide⟩

/-- C1 (amended): when the tree contains at least one surviving root
declaration and every surviving declaration resolves to the same file
`wd ++ b`, resolution returns `wd ++ b` — an existing regular file — whatever
else the tree contains; in particular a top-level main.tex does not matter,
because the declaration stage runs before and outranks the convention stage. -/
theorem c1_amended_unique_declared_root_wins
    (wd : List String) (t : Tree) (b : List String)
    (h1 : magicDecls wd t ≠ [])
    (h2 : ∀ c ∈ magicDecls wd t, c = wd ++ b) :
    pickMainTex wd t = .ok (wd ++ b) ∧ isFile t b = true := by
  have hd : firstDedup (magicDecls wd t) = [wd ++ b] := firstDedup_all_eq _ _ h1 h2
  have hm : pickMagicRoot wd t = some (wd ++ b) := by
    show chooseMax (beats2 (magicDecls wd t)) (firstDedup (magicDecls wd t)) =
      some (wd ++ b)
    rw [hd]
    rfl
  constructor
  · simp only [pickMainTex, hm]
  · obtain ⟨c, hc⟩ : ∃ c, c ∈ magicDecls wd t := by
      cases hmd : magicDecls wd t with
      | nil => exact absurd hmd h1
      | cons a l => exact ⟨a, List.mem_cons_self _ _⟩
    have hcb := h2 c hc
    subst hcb
    obtain ⟨-, hf, -⟩ := mem_magicDecls hc
    rw [List.drop_left] at hf
    exact hf

/-- C1 amended witness: a.tex declares b.tex, the only declaration, and a
top-level main.tex exists; resolution still returns w/b.tex. -/
theorem c1_amended_witness :
    pickMainTex ["w"] c1amTree = .ok (["w"] ++ ["b.tex"]) ∧
    isFile c1amTree ["b.tex"] = true :=
  c1_amended_unique_declared_root_wins ["w"] c1amTree ["b.tex"] (by decide) (by decide)

/-! ## Claim C4 -/

/-- C4 (confirmed): both selection stages break ties by shortest absolute path
string. (a) A candidate returned by the declaration stage is a surviving
declared candidate whose tally is maximal, and among equal tallies its path
string length is minimal. (b) A path returned by the scored fallback (no
declaration survived, no top-level main.tex) is a glob candidate of maximal
score, and among equal scores its path string length is minimal.  Both stages
are functions of the tree alone, so repeated runs resolve identically. -/
theorem c4_tiebreak_shortest_path (wd : List String) (t : Tree) (m : List String) :
    (pickMagicRoot wd t = some m →
      m ∈ magicDecls wd t ∧
      ∀ x ∈ magicDecls wd t,
        (magicDecls wd t).count x ≤ (magicDecls wd t).count m ∧
        ((magicDecls wd t).count x = (magicDecls wd t).count m →
          pathLen m ≤ pathLen x)) ∧
    (pickMagicRoot wd t = none → pathExists t ["main.tex"] = false →
      pickMainTex wd t = .ok m →
      ∃ rel, m = wd ++ rel ∧ rel ∈ rglobTex t ∧
        ∀ x ∈ rglobTex t,
          scoreOf t x ≤ scoreOf t rel ∧
          (scoreOf t x = scoreOf t rel → pathLen (wd ++ rel) ≤ pathLen (wd ++ x))) := by
  constructor
  · intro hm
    have hmem : m ∈ magicDecls wd t := (mem_firstDedup _ _).1 (chooseMax_mem _ hm)
    refine ⟨hmem, ?_⟩
    intro x hx
    have hb := chooseMax_best _ (beats2_htr _) (beats2_irrefl _) (beats2_asymm _) hm x
      ((mem_firstDedup _ _).2 hx)
    simp only [beats2, decide_eq_false_iff_not] at hb
    exact ⟨by omega, fun he => by omega⟩
  · intro hm hmain hpick
    simp only [pickMainTex, hm] at hpick
    simp only [conventionOrScore, hmain] at hpick
    rw [if_neg (by simp)] at hpick
    cases hcm : chooseMax (beats3 wd t) (rglobTex t) with
    | none => rw [hcm] at hpick; cases hpick
    | some q =>
      rw [hcm] at hpick
      have hpick' : Except.ok (wd ++ q) = Except.ok m := hpick
      cases hpick'
      refine ⟨q, rfl, chooseMax_mem _ hcm, ?_⟩
      intro x hx
      have hb := chooseMax_best _ (beats3_htr wd t) (beats3_irrefl wd t)
        (beats3_asymm wd t) hcm x hx
      simp only [beats3, decide_eq_false_iff_not] at hb
      have hb1 : ¬(scoreOf t q < scoreOf t x) := fun hlt => hb (Or.inl hlt)
      have hb2 : ¬(scoreOf t x = scoreOf t q ∧
          pathLen (wd ++ x) < pathLen (wd ++ q)) :=
        fun hand => hb (Or.inr (Or.inl hand))
      exact ⟨by omega, fun he => by omega⟩

/-- C4 witness: the declaration stage picks the candidate declared twice over
the one declared once, and the scored fallback picks the shorter of two
equally-scored paths. -/
theorem c4_witness :
    (["w", "b.tex"] ∈ magicDecls ["w"] c4magTree ∧
      ∀ x ∈ magicDecls ["w"] c4magTree,
        (magicDecls ["w"] c4magTree).count x ≤
          (magicDecls ["w"] c4magTree).count ["w", "b.tex"] ∧
        ((magicDecls ["w"] c4magTree).count x =
            (magicDecls ["w"] c4magTree).count ["w", "b.tex"] →
          pathLen ["w", "b.tex"] ≤ pathLen x)) ∧
    (∃ rel, (["w", "u.tex"] : List String) = ["w"] ++ rel ∧
      rel ∈ rglobTex c4scoreTree ∧
      ∀ x ∈ rglobTex c4scoreTree,
        scoreOf c4scoreTree x ≤ scoreOf c4scoreTree rel ∧
        (scoreOf c4scoreTree x = scoreOf c4scoreTree rel →
          pathLen (["w"] ++ rel) ≤ pathLen (["w"] ++ x))) :=
  ⟨(c4_tiebreak_shortest_path ["w"] c4magTree ["w", "b.tex"]).1 rfl,
   (c4_tiebreak_shortest_path ["w"] c4scoreTree ["w", "u.tex"]).2 rfl rfl rfl⟩

/-! ## Claim C5 -/

/-- C5 (counterexample): in the scored fallback a nested file named main.tex
containing no document-class declaration scores 50 and beats a.tex, which
contains the declaration and scores only 40 — the main.tex base weight (50)
exceeds the document-class weight (40) — so resolution picks the file without
the declaration, falsifying the claim as stated for arbitrary file pairs. -/
theorem c5_counterexample :
    containsSub (readText c5cexTree ["a.tex"]) "\\documentclass" = true ∧
    containsSub (readText c5cexTree ["sub", "main.tex"]) "\\documentclass" = false ∧
    scoreOf c5cexTree ["a.tex"] = 40 ∧
    scoreOf c5cexTree ["sub", "main.tex"] = 50 ∧
    pickMainTex ["w"] c5cexTree = .ok ["w", "sub", "main.tex"] :=
  ⟨rfl, rfl, rfl, rfl, rfl⟩

/-- C5 (amended): in the scored fallback, of two candidates neither of which
is named main.tex, one containing a document-class declaration and the other
not, the declaration holder scores strictly higher — the document-class
weight 40 exceeds the document-begin plus document-end weights 20 + 5 — and
is chosen, whichever of the two files the glob enumerates first. -/
theorem c5_amended_documentclass_wins
    (wd : List String) (t : Tree) (f g : List String)
    (hm : pickMagicRoot wd t = none)
    (hmain : pathExists t ["main.tex"] = false)
    (hglob : rglobTex t = [f, g] ∨ rglobTex t = [g, f])
    (hf : lowerStr (f.getLastD "") ≠ "main.tex")
    (hg : lowerStr (g.getLastD "") ≠ "main.tex")
    (hdf : containsSub (readText t f) "\\documentclass" = true)
    (hdg : containsSub (readText t g) "\\documentclass" = false) :
    scoreOf t g < scoreOf t f ∧ pickMainTex wd t = .ok (wd ++ f) := by
  have hsf : 40 ≤ scoreOf t f := by
    simp only [scoreOf]
    rw [if_neg hf, if_pos hdf]
    split <;> split <;> omega
  have hsg : scoreOf t g ≤ 25 := by
    simp only [scoreOf]
    rw [if_neg hg, hdg, if_neg (by simp)]
    split <;> split <;> omega
  refine ⟨by omega, ?_⟩
  simp only [pickMainTex, hm]
  simp only [conventionOrScore, hmain]
  rw [if_neg (by simp)]
  rcases hglob with hglob | hglob
  · rw [hglob]
    have hb : beats3 wd t g f = false := by
      simp only [beats3, decide_eq_false_iff_not]
      rintro (h | ⟨he, -⟩ | ⟨he, -, -⟩) <;> omega
    rw [show chooseMax (beats3 wd t) [f, g] =
      some (if beats3 wd t g f = true then g else f) from rfl]
    rw [hb]
    simp
  · rw [hglob]
    have hb : beats3 wd t f g = true := by
      simp only [beats3, decide_eq_true_eq]
      exact Or.inl (by omega)
    rw [show chooseMax (beats3 wd t) [g, f] =
      some (if beats3 wd t f g = true then f else g) from rfl]
    rw [hb]
    simp

/-- C5 amended witness: b.tex holds a document-class declaration, frag.tex
does not, and frag.tex is enumerated first; resolution still picks b.tex. -/
theorem c5_amended_witness :
    scoreOf c5amTree ["frag.tex"] < scoreOf c5amTree ["b.tex"] ∧
    pickMainTex ["w"] c5amTree = .ok (["w"] ++ ["b.tex"]) :=
  c5_amended_documentclass_wins ["w"] c5amTree ["b.tex"] ["frag.tex"] rfl rfl
    (Or.inr rfl) (by decide) (by decide) rfl rfl

/-! ## Claim C6 -/

/-- C6 (counterexample): a declaration may name any existing regular file —
here a.tex declares b.txt and resolution returns w/b.txt, whose name does not
end in ".tex", falsifying "the Resolved Root is a .tex regular file". -/
theorem c6_counterexample :
    pickMainTex ["w"] c6cexTree = .ok ["w", "b.txt"] ∧
    texName ((["w", "b.txt"] : List String).getLastD "") = false :=
  ⟨rfl, rfl⟩

/-- C6 (amended): whichever stage produces it, the resolved root is an
existing entry (file or directory) lying strictly inside the working
directory; the declaration stage even guarantees a regular file, but no stage
guarantees the ".tex" extension. -/
theorem c6_amended_root_exists_in_workdir
    (wd : List String) (t : Tree) (p : List String)
    (hwf : ∀ e ∈ t, e.path ≠ [])
    (h : pickMainTex wd t = .ok p) :
    ∃ rel, p = wd ++ rel ∧ rel ≠ [] ∧ pathExists t rel = true := by
  cases hm : pickMagicRoot wd t with
  | some c =>
    simp only [pickMainTex, hm] at h
    have hcp : c = p := by cases h; rfl
    subst hcp
    have hmem : c ∈ magicDecls wd t := (mem_firstDedup _ _).1 (chooseMax_mem _ hm)
    obtain ⟨h1, h2, -⟩ := mem_magicDecls hmem
    obtain ⟨rel, hrel⟩ := List.isPrefixOf_iff_prefix.1 h1
    have hdrop : c.drop wd.length = rel := by rw [← hrel, List.drop_left]
    rw [hdrop] at h2
    refine ⟨rel, hrel.symm, ?_, pathExists_of_isFile h2⟩
    obtain ⟨e, he, hep, -⟩ := exists_entry_of_isFile h2
    intro hn
    rw [hn] at hep
    exact hwf e he hep
  | none =>
    simp only [pickMainTex, hm] at h
    simp only [conventionOrScore] at h
    by_cases hmain : pathExists t ["main.tex"] = true
    · rw [if_pos hmain] at h
      cases h
      exact ⟨["main.tex"], rfl, by simp, hmain⟩
    · rw [if_neg hmain] at h
      cases hcm : chooseMax (beats3 wd t) (rglobTex t) with
      | none => rw [hcm] at h; cases h
      | some q =>
        rw [hcm] at h
        have h' : Except.ok (wd ++ q) = Except.ok p := h
        cases h'
        have hq : q ∈ rglobTex t := chooseMax_mem _ hcm
        have hq2 : q ∈ allPaths t := (List.mem_filter.1 hq).1
        obtain ⟨hex, hne⟩ := pathExists_of_mem_allPaths hq2
        exact ⟨q, rfl, hne, hex⟩

/-- C6 amended witness: the convention stage resolves a one-file tree to its
top-level main.tex, an existing entry inside the working directory. -/
theorem c6_amended_witness :
    ∃ rel, (["w", "main.tex"] : List String) = ["w"] ++ rel ∧ rel ≠ [] ∧
      pathExists c6amTree rel = true :=
  c6_amended_root_exists_in_workdir ["w"] c6amTree ["w", "main.tex"] (by decide) rfl

/-! ## Claim C7 -/

theorem compileLog_congr :
    ∀ (l1 l2 : List Invocation),
      l1.map Invocation.output = l2.map Invocation.output →
      ∀ acc : String, l1.foldl (fun acc i => acc ++ i.output) acc =
        l2.foldl (fun acc i => acc ++ i.output) acc := by
  intro l1
  induction l1 with
  | nil =>
    intro l2 h acc
    cases l2 with
    | nil => rfl
    | cons b l2 => cases h
  | cons a l1 ih =>
    intro l2 h acc
    cases l2 with
    | nil => cases h
    | cons b l2 =>
      simp only [List.map_cons, List.cons.injEq] at h
      simp only [List.foldl_cons]
      rw [h.1]
      exact ih l2 h.2 (acc ++ b.output)

/-- C7 (confirmed): a non-zero exit status is never treated as a failure.
Once the root is resolved, the pipeline result depends only on the captured
invocation outputs and on the filesystem state after all invocations — not on
any exit code — and the compile succeeds (returns bytes) exactly when a
regular file `<root-stem>.pdf` is present in the root's directory after all
invocations. -/
theorem c7_exit_codes_irrelevant_artifact_decides
    (wd : List String) (t : Tree) (run run2 : ToolchainRun) (root : List String)
    (hroot : pickMainTex wd t = .ok root) :
    ((∃ b, compilePipeline wd t run = .ok b) ↔
      isFile run.finalTree (pdfRelOf wd root) = true) ∧
    (run2.finalTree = run.finalTree →
      run2.invocations.map Invocation.output = run.invocations.map Invocation.output →
      compilePipeline wd t run2 = compilePipeline wd t run) := by
  have hunf : ∀ r : ToolchainRun, compilePipeline wd t r =
      (if pathExists r.finalTree (pdfRelOf wd root) then
        readFileBytes r.finalTree (pdfRelOf wd root)
      else .error ("PDF not produced. Log tail:\n" ++ pyTail 8000 (compileLog r))) := by
    intro r
    simp only [compilePipeline, hroot]
  constructor
  · rw [hunf run]
    by_cases hex : pathExists run.finalTree (pdfRelOf wd root) = true
    · rw [if_pos hex]
      cases hfe : findEntry run.finalTree (pdfRelOf wd root) with
      | none =>
        have h1 : readFileBytes run.finalTree (pdfRelOf wd root) =
            .error "read_bytes: no such file" := by
          simp only [readFileBytes, hfe]
        have h2 : isFile run.finalTree (pdfRelOf wd root) = false := by
          simp only [isFile, hfe]
        rw [h1, h2]
        constructor
        · rintro ⟨b, hb⟩; cases hb
        · intro hfalse; cases hfalse
      | some e =>
        cases hk : e.kind with
        | file c =>
          have h1 : readFileBytes run.finalTree (pdfRelOf wd root) = .ok c := by
            simp only [readFileBytes, hfe, hk]
          have h2 : isFile run.finalTree (pdfRelOf wd root) = true := by
            simp only [isFile, hfe, hk, entryIsFile]
          rw [h1, h2]
          simp
        | dir =>
          have h1 : readFileBytes run.finalTree (pdfRelOf wd root) =
              .error "read_bytes: is a directory" := by
            simp only [readFileBytes, hfe, hk]
          have h2 : isFile run.finalTree (pdfRelOf wd root) = false := by
            simp only [isFile, hfe, hk, entryIsFile]
          rw [h1, h2]
          constructor
          · rintro ⟨b, hb⟩; cases hb
          · intro hfalse; cases hfalse
    · have hex' : pathExists run.finalTree (pdfRelOf wd root) = false := by
        cases hx : pathExists run.finalTree (pdfRelOf wd root) with
        | false => rfl
        | true => exact absurd hx hex
      rw [if_neg hex]
      have hfl : isFile run.finalTree (pdfRelOf wd root) = false := by
        cases hx : isFile run.finalTree (pdfRelOf wd root) with
        | false => rfl
        | true => exact absurd (pathExists_of_isFile hx) hex
      rw [hfl]
      constructor
      · rintro ⟨b, hb⟩; cases hb
      · intro hfalse; cases hfalse
  · intro hft hout
    have hlog : compileLog run2 = compileLog run := compileLog_congr _ _ hout ""
    rw [hunf run, hunf run2, hft, hlog]

/-- C7 witness: with the PDF present in the final tree, the same pipeline
outcome is reached whether the invocation exited 1 or 0, and success agrees
with artifact presence. -/
theorem c7_witness :
    ((∃ b, compilePipeline ["w"] c7Tree c7Run = .ok b) ↔
      isFile c7Run.finalTree (pdfRelOf ["w"] ["w", "main.tex"]) = true) ∧
    compilePipeline ["w"] c7Tree c7RunZero = compilePipeline ["w"] c7Tree c7Run :=
  ⟨(c7_exit_codes_irrelevant_artifact_decides ["w"] c7Tree c7Run c7Run
      ["w", "main.tex"] rfl).1,
   (c7_exit_codes_irrelevant_artifact_decides ["w"] c7Tree c7Run c7RunZero
      ["w", "main.tex"] rfl).2 rfl rfl⟩

/-! ## Claim C8 -/

/-- C8 (confirmed): when after all invocations no entry `<root-stem>.pdf`
exists in the root's directory, the compile fails with an error whose message
is "PDF not produced. Log tail:" followed by the final characters of the
accumulated Compile Log — a suffix of the log of length at most 8000,
truncated from the front so the most recent output is kept. -/
theorem c8_pdf_absent_fails_with_log_tail
    (wd : List String) (t : Tree) (run : ToolchainRun) (root : List String)
    (hroot : pickMainTex wd t = .ok root)
    (habs : pathExists run.finalTree (pdfRelOf wd root) = false) :
    compilePipeline wd t run =
      .error ("PDF not produced. Log tail:\n" ++ pyTail 8000 (compileLog run)) ∧
    (pyTail 8000 (compileLog run)).length ≤ 8000 ∧
    ∃ pre, compileLog run = pre ++ pyTail 8000 (compileLog run) := by
  refine ⟨?_, ?_, ?_⟩
  · simp only [compilePipeline, hroot, habs]
    simp
  · have h1 : (pyTail 8000 (compileLog run)).length =
        ((compileLog run).data.drop ((compileLog run).data.length - 8000)).length := rfl
    rw [h1, List.length_drop]
    omega
  · refine ⟨String.mk ((compileLog run).data.take ((compileLog run).data.length - 8000)), ?_⟩
    have h2 : String.mk ((compileLog run).data.take ((compileLog run).data.length - 8000)) ++
        pyTail 8000 (compileLog run) =
        String.mk ((compileLog run).data.take ((compileLog run).data.length - 8000) ++
          (compileLog run).data.drop ((compileLog run).data.length - 8000)) := rfl
    rw [h2, List.take_append_drop]

/-- C8 witness: a run that writes no PDF fails with the log-tail error, and
the tail is a bounded suffix of the log. -/
theorem c8_witness :
    compilePipeline ["w"] c8Tree c8Run =
      .error ("PDF not produced. Log tail:\n" ++ pyTail 8000 (compileLog c8Run)) ∧
    (pyTail 8000 (compileLog c8Run)).length ≤ 8000 ∧
    ∃ pre, compileLog c8Run = pre ++ pyTail 8000 (compileLog c8Run) :=
  c8_pdf_absent_fails_with_log_tail ["w"] c8Tree c8Run ["w", "main.tex"] rfl rfl

end LatexCompile







